import Mathlib

/-!
# go-mcast: the per-peer protocol core

A shallow embedding of `src/internal/peer.go` (`process`,
`processInitialMessage`, `exchangeTimestamp`, `send`, `doDeliver`) as pure
state-passing functions, together with the collaborators the peer calls
(logical clock, previous set, memo, receive queue, `MaxValue`), whose
implementations are described by the specification.

The embedding is sequential: one call runs to completion before the next
starts.  Logging has no effect on the protocol state and is left out.
-/

namespace Mcast

/-! ## Data model -/

/-- Message identifier (`UID`), an opaque string. -/
abbrev UID := String

/-- Partition identifier. -/
abbrev Partition := String

/-- The message states S0..S3. -/
inductive MessageState where
  | S0
  | S1
  | S2
  | S3
  deriving DecidableEq, Repr

open MessageState

/-- Position of a state in the order S0 < S1 < S2 < S3 (wire values 0..3). -/
def MessageState.rank : MessageState → Nat
  | S0 => 0
  | S1 => 1
  | S2 => 2
  | S3 => 3

/-- Message type as carried in the header; `Initial = 0`, `External = 1`,
any other value is an unknown type. -/
abbrev MessageType := Nat

/-- The `Initial` message type. -/
def Initial : MessageType := 0

/-- The `External` message type. -/
def External : MessageType := 1

/-- The protocol header read by `process` through `message.Extract()`. -/
structure ProtocolHeader where
  ProtocolVersion : Nat
  MsgType : MessageType
  deriving DecidableEq, Repr

/-- The message payload `{key, data, extensions}`. -/
structure Payload where
  Key : String
  Data : List Nat
  Extensions : List Nat
  deriving DecidableEq, Repr

/-- A protocol message.  `Timestamp` is an unsigned 64-bit value in the
source and `Partitions` a signed integer. -/
structure Message where
  Header : ProtocolHeader
  Identifier : UID
  Content : Payload
  State : MessageState
  Timestamp : Nat
  Destination : List Partition
  Partitions : Int
  deriving DecidableEq, Repr

/-- The source's `message.Extract()`: the header of the message. -/
def Message.Extract (m : Message) : ProtocolHeader := m.Header

/-- Largest value of an unsigned 64-bit timestamp. -/
def maxUint64 : Nat := 2 ^ 64 - 1

/-! ## Collaborators -/

/-- Modelled from the spec: the `LogicalClock` implementation (`ProcessClock`)
is not among the sources.  Section 4.1: an unsigned 64-bit counter created
at 0. -/
structure ProcessClock where
  value : Nat
  deriving DecidableEq, Repr

/-- Modelled from the spec: the clock's `Tick` is missing.  Section 4.1:
"`tick()` increments by 1", and overflow "must saturate (not wrap) at the
maximum representable value". -/
def ProcessClock.Tick (c : ProcessClock) : ProcessClock :=
  if c.value < maxUint64 then { value := c.value + 1 } else c

/-- Modelled from the spec: the clock's `Tock` is missing.  Section 4.1:
"`read()` returns current". -/
def ProcessClock.Tock (c : ProcessClock) : Nat := c.value

/-- Modelled from the spec: the clock's `Leap` is missing.  Section 4.1:
"`leap(t)` sets value to `max(current, t)`". -/
def ProcessClock.Leap (c : ProcessClock) (t : Nat) : ProcessClock :=
  { value := max c.value t }

/-- Modelled from the spec: the clock's `Defines` is missing.  Section 4.1:
"`set(t)` unconditionally assigns". -/
def ProcessClock.Defines (_c : ProcessClock) (t : Nat) : ProcessClock :=
  { value := t }

/-- Modelled from the spec: the `PreviousSet` implementation is missing.
Section 4.2: a collection of messages with `append(m)`, `clear()` and
`snapshot()`. -/
structure PreviousSet where
  values : List Message
  deriving DecidableEq, Repr

/-- Modelled from the spec: `NewPreviousSet` is missing; a new set is empty. -/
def NewPreviousSet : PreviousSet := { values := [] }

/-- Modelled from the spec: `append(m)` of section 4.2. -/
def PreviousSet.Append (s : PreviousSet) (m : Message) : PreviousSet :=
  { values := s.values ++ [m] }

/-- Modelled from the spec: `clear()` of section 4.2. -/
def PreviousSet.Clear (_s : PreviousSet) : PreviousSet := { values := [] }

/-- Modelled from the spec: `snapshot()` of section 4.2, the current
contents handed to the conflict predicate. -/
def PreviousSet.Snapshot (s : PreviousSet) : List Message := s.values

/-- Modelled from the spec: the `Memo` implementation is missing.  Section
3: a "mapping from message identifier to the list of timestamps". -/
structure Memo where
  entries : List (UID × List Nat)
  deriving DecidableEq, Repr

/-- Modelled from the spec: `NewMemo` is missing; a new memo has no entry. -/
def NewMemo : Memo := { entries := [] }

/-- Append `ts` to the list bound to `id` in an association list. -/
def insertEntry (id : UID) (ts : Nat) : List (UID × List Nat) → List (UID × List Nat)
  | [] => [(id, [ts])]
  | (k, vs) :: rest =>
    if k = id then (k, vs ++ [ts]) :: rest else (k, vs) :: insertEntry id ts rest

/-- The list bound to `id` in an association list, empty when absent. -/
def readEntry (id : UID) : List (UID × List Nat) → List Nat
  | [] => []
  | (k, vs) :: rest => if k = id then vs else readEntry id rest

/-- Modelled from the spec: `insert(id, ts)` of section 4.4, "append `ts` to
the list bound to `id`". -/
def Memo.Insert (m : Memo) (id : UID) (ts : Nat) : Memo :=
  { entries := insertEntry id ts m.entries }

/-- Modelled from the spec: `read(id)` of section 4.4, "return current list". -/
def Memo.Read (m : Memo) (id : UID) : List Nat := readEntry id m.entries

/-- Modelled from the spec: `remove(id)` of section 4.4, "discard entry". -/
def Memo.Remove (m : Memo) (id : UID) : Memo :=
  { entries := m.entries.filter (fun e => decide (e.1 ≠ id)) }

/-- Modelled from the spec: `MaxValue` is missing.  Section 4.7:
"`tsm ← max(values)`". -/
def MaxValue (values : List Nat) : Nat := values.foldl max 0

/-- The receive-queue ordering key `(timestamp ASC, identifier ASC)`. -/
def queueBefore (a b : Message) : Bool :=
  decide (a.Timestamp < b.Timestamp) ||
    (decide (a.Timestamp = b.Timestamp) && decide (a.Identifier < b.Identifier))

/-- Ordered insertion by the receive-queue ordering key. -/
def insertOrdered (m : Message) : List Message → List Message
  | [] => [m]
  | x :: rest => if queueBefore m x then m :: x :: rest else x :: insertOrdered m rest

/-- Modelled from the spec: the `Queue` implementation is missing.  Section
4.5: elements kept in ascending order key, at most one per identifier. -/
structure Queue where
  elements : List Message
  deriving DecidableEq, Repr

/-- Modelled from the spec: `NewQueue` is missing; a new queue is empty. -/
def NewQueue : Queue := { elements := [] }

/-- Modelled from the spec: `dequeue(id)` of section 4.5, "removes the
element with the given identifier; no-op if absent". -/
def Queue.Dequeue (q : Queue) (m : Message) : Queue :=
  { elements := q.elements.filter (fun x => decide (x.Identifier ≠ m.Identifier)) }

/-- Modelled from the spec: `enqueue(m)` of section 4.5, "inserts m; if an
element with the same identifier already exists, the existing entry is
updated in place to m", the queue being re-sorted. -/
def Queue.Enqueue (q : Queue) (m : Message) : Queue :=
  { elements := insertOrdered m (q.Dequeue m).elements }

/-- Modelled from the spec: `snapshot()` of section 4.5, "the elements in
ascending order key". -/
def Queue.Snapshot (q : Queue) : List Message := q.elements

/-- The transport, seen from the peer: the messages handed to `Broadcast`,
oldest first. -/
structure Transport where
  sent : List Message
  deriving DecidableEq, Repr

/-- One `Broadcast` call: the message is handed to the transport. -/
def Transport.Broadcast (t : Transport) (m : Message) : Transport :=
  { sent := t.sent ++ [m] }

/-- The deliver process, seen from the peer: the queue snapshots handed to
`Deliver`, oldest first. -/
structure Deliverable where
  calls : List (List Message)
  deriving DecidableEq, Repr

/-- One `Deliver` call with the given snapshot. -/
def Deliverable.Deliver (d : Deliverable) (messages : List Message) : Deliverable :=
  { calls := d.calls ++ [messages] }

/-- The part of `PeerConfiguration` the protocol core reads. -/
structure PeerConfiguration where
  Name : String
  Partition : Partition
  Version : Nat
  Conflict : Message → List Message → Bool

/-- The peer of `peer.go`, restricted to the fields of the protocol core. -/
structure Peer where
  configuration : PeerConfiguration
  transport : Transport
  clock : ProcessClock
  rqueue : Queue
  previousSet : PreviousSet
  deliver : Deliverable
  received : Memo

/-- The state `NewPeer` builds: clock at zero and every collection empty. -/
def NewPeer (configuration : PeerConfiguration) : Peer :=
  { configuration := configuration
    transport := { sent := [] }
    clock := { value := 0 }
    rqueue := NewQueue
    previousSet := NewPreviousSet
    deliver := { calls := [] }
    received := NewMemo }

/-! ## The protocol core (`peer.go`) -/

/-- `Peer.send` (peer.go 283-295): the copy gets type `t` and the
destinations other than the peer's own partition, and is broadcast. -/
def send (p : Peer) (message : Message) (t : MessageType) : Peer :=
  let otherPartitions :=
    message.Destination.filter (fun partition => decide (partition ≠ p.configuration.Partition))
  let out : Message :=
    { message with
      Header := { message.Header with MsgType := t }
      Destination := otherPartitions }
  { p with transport := p.transport.Broadcast out }

/-- First block of `processInitialMessage` (peer.go 225-232): the stamping
of a message in state S0. -/
def stampInitial (p : Peer) (message : Message) : Peer × Message :=
  if message.State = S0 then
    let p1 : Peer :=
      if p.configuration.Conflict message p.previousSet.Snapshot then
        { p with clock := p.clock.Tick, previousSet := p.previousSet.Clear }
      else p
    let m1 : Message := { message with Timestamp := p1.clock.Tock }
    ({ p1 with previousSet := p1.previousSet.Append m1 }, m1)
  else (p, message)

/-- Second block of `processInitialMessage` (peer.go 234-249): the
branching on the number of destinations. -/
def routeDestination (p : Peer) (message : Message) : Peer × Message :=
  if message.Destination.length > 1 then
    if message.State = S0 then
      let m1 : Message := { message with State := S1, Timestamp := p.clock.Tock }
      (send p m1 External, m1)
    else if message.State = S2 then
      let m1 : Message := { message with State := S3 }
      if m1.Timestamp > p.clock.Tock then
        ({ p with clock := p.clock.Leap m1.Timestamp, previousSet := p.previousSet.Clear }, m1)
      else (p, m1)
    else (p, message)
  else
    (p, { message with Timestamp := p.clock.Tock, State := S3 })

/-- `Peer.processInitialMessage` (peer.go 224-250); returns the peer and
the message as the call leaves them. -/
def processInitialMessage (p : Peer) (message : Message) : Peer × Message :=
  routeDestination (stampInitial p message).1 (stampInitial p message).2

/-- `Peer.exchangeTimestamp` (peer.go 261-278); returns the peer and the
message as the call leaves them. -/
def exchangeTimestamp (p : Peer) (message : Message) : Peer × Message :=
  let p1 : Peer := { p with received := p.received.Insert message.Identifier message.Timestamp }
  let values := p1.received.Read message.Identifier
  if (values.length : Int) < message.Partitions then (p1, message)
  else
    let tsm := MaxValue values
    if message.Timestamp ≥ tsm then (p1, { message with State := S3 })
    else (p1, { message with Timestamp := tsm, State := S2 })

/-- `Peer.doDeliver` (peer.go 301-310): a snapshot of the receive queue is
handed to the deliver process. -/
def doDeliver (p : Peer) : Peer :=
  { p with deliver := p.deliver.Deliver p.rqueue.Snapshot }

/-- The deferred function of `process` (peer.go 185-190): enqueue the
message when it was valid, then trigger the delivery. -/
def finishProcess (valid : Bool) (p : Peer) (message : Message) : Peer × Message :=
  (doDeliver (if valid then { p with rqueue := p.rqueue.Enqueue message } else p), message)

/-- `Peer.process` (peer.go 177-203); returns the peer and the local
message as the call leaves them. -/
def process (p : Peer) (message : Message) : Peer × Message :=
  let header := message.Extract
  if header.ProtocolVersion ≠ p.configuration.Version then (p, message)
  else if header.MsgType = Initial then
    finishProcess true (processInitialMessage p message).1 (processInitialMessage p message).2
  else if header.MsgType = External then
    finishProcess true (exchangeTimestamp p message).1 (exchangeTimestamp p message).2
  else finishProcess false p message

/-! ## Clock runs and call sequences -/

/-- The fresh clock of `clock_test.go`: the zero value. -/
def NewClock : ProcessClock := { value := 0 }

/-- The clock after `n` calls of `Tick`.  Every `Tick` is atomic, so `n`
concurrent calls act as `n` calls in a row, whatever the interleaving. -/
def tickTimes (n : Nat) (c : ProcessClock) : ProcessClock :=
  Nat.iterate ProcessClock.Tick n c

/-- One call on the peer: `processInitialMessage` or `exchangeTimestamp`
on some message. -/
inductive Call where
  | initial (m : Message)
  | external (m : Message)

/-- The peer after one call. -/
def step (p : Peer) : Call → Peer
  | Call.initial m => (processInitialMessage p m).1
  | Call.external m => (exchangeTimestamp p m).1

/-- The peer after a finite sequence of calls, executed one at a time. -/
def run (p : Peer) (calls : List Call) : Peer := calls.foldl step p

/-- Every message of the previous set carries the current clock value. -/
def StampedWithClock (p : Peer) : Prop :=
  ∀ x ∈ p.previousSet.Snapshot, x.Timestamp = p.clock.Tock

/-! ## Concrete peers and messages used at fixed inputs -/

/-- A configuration for partition "P", version 1, in which a message
conflicts with a previous set that holds a message on its key. -/
def sampleConfiguration : PeerConfiguration :=
  { Name := "peer-1", Partition := "P", Version := 1,
    Conflict := fun m s => s.any (fun x => decide (x.Content.Key = m.Content.Key)) }

/-- A single-destination Initial message in state S0. -/
def sampleMessage : Message :=
  { Header := { ProtocolVersion := 1, MsgType := Initial }, Identifier := "a",
    Content := { Key := "k", Data := [118], Extensions := [] }, State := S0, Timestamp := 0,
    Destination := ["P"], Partitions := 1 }

/-- A peer that already stamped `sampleMessage`, with the given clock value. -/
def peerAt (clock : Nat) : Peer :=
  { NewPeer sampleConfiguration with
    clock := { value := clock }
    previousSet := { values := [{ sampleMessage with Timestamp := clock }] } }

/-- A second message on the same key as `sampleMessage`. -/
def sampleConflicting : Message :=
  { sampleMessage with Identifier := "b" }

/-- A message on another key than `sampleMessage`. -/
def sampleIndependent : Message :=
  { sampleMessage with Identifier := "c", Content := { Key := "j", Data := [], Extensions := [] } }

/-- A two-destination message in state S0. -/
def sampleMulti : Message :=
  { sampleMessage with Identifier := "x", Destination := ["P", "Q"], Partitions := 2 }

/-- A single-destination message in state S2 whose timestamp is above the
clock of `peerAt 0`. -/
def sampleSingleS2 : Message :=
  { sampleMessage with Identifier := "s", State := S2, Timestamp := 5 }

/-- A two-destination message in state S2 with timestamp 9. -/
def sampleMultiS2 : Message :=
  { sampleMulti with State := S2, Timestamp := 9 }

/-- A message of protocol version 2 for a peer of version 1. -/
def sampleOtherVersion : Message :=
  { sampleMulti with Header := { ProtocolVersion := 2, MsgType := External } }

/-- An External message for identifier "x", as a peer of "P" receives it
from partition "Q": state S1, timestamp 1, two partitions. -/
def sampleExternal : Message :=
  { sampleMulti with
    Header := { ProtocolVersion := 1, MsgType := External }
    State := S1, Timestamp := 1, Destination := ["P"] }

/-- The External message `sampleExternal` carrying state S3. -/
def sampleExternalS3 : Message :=
  { sampleExternal with State := S3 }

/-- A two-destination message in state S2 carrying the largest 64-bit
timestamp. -/
def sampleLeap : Message :=
  { sampleMulti with Identifier := "l", State := S2, Timestamp := maxUint64 }

/-- A peer whose memo already holds timestamp 5 for identifier "x". -/
def peerWithMemo : Peer :=
  { NewPeer sampleConfiguration with received := { entries := [("x", [5])] } }

/-! ## Helper lemmas -/

theorem mem_insertOrdered (m : Message) (l : List Message) : m ∈ insertOrdered m l := by
  induction l with
  | nil => simp [insertOrdered]
  | cons x rest ih =>
    unfold insertOrdered
    split
    · simp
    · exact List.mem_cons_of_mem _ ih

theorem mem_Enqueue (q : Queue) (m : Message) : m ∈ (q.Enqueue m).Snapshot := by
  unfold Queue.Enqueue Queue.Snapshot
  exact mem_insertOrdered m _

theorem Tick_value_le (c : ProcessClock) : c.value ≤ c.Tick.value := by
  unfold ProcessClock.Tick
  split <;> simp

theorem Tick_of_lt (c : ProcessClock) (h : c.value < maxUint64) :
    c.Tick.value = c.value + 1 := by
  simp [ProcessClock.Tick, h]

theorem stampInitial_Destination (p : Peer) (m : Message) :
    (stampInitial p m).2.Destination = m.Destination := by
  unfold stampInitial
  by_cases h : m.State = S0 <;> simp [h]

theorem stampInitial_transport (p : Peer) (m : Message) :
    (stampInitial p m).1.transport = p.transport := by
  unfold stampInitial
  by_cases h : m.State = S0 <;>
    by_cases hc : p.configuration.Conflict m p.previousSet.Snapshot = true <;> simp [h, hc]

theorem stampInitial_rqueue (p : Peer) (m : Message) :
    (stampInitial p m).1.rqueue = p.rqueue := by
  unfold stampInitial
  by_cases h : m.State = S0 <;>
    by_cases hc : p.configuration.Conflict m p.previousSet.Snapshot = true <;> simp [h, hc]

/-! ## Stamping of a message in state S0 -/

/-- C1 (as stated, refuted): with the clock at the largest 64-bit value (a
state reached from a fresh peer by one leap and one stamping) and a
conflicting S0 message, the clock is not advanced by one: it keeps its
value, and that value stamps the message. -/
theorem processInitialMessage_tick_saturates :
    (run (NewPeer sampleConfiguration)
        [Call.initial sampleLeap, Call.initial sampleMessage]).clock
      = (peerAt maxUint64).clock ∧
    (run (NewPeer sampleConfiguration)
        [Call.initial sampleLeap, Call.initial sampleMessage]).previousSet
      = (peerAt maxUint64).previousSet ∧
    sampleConflicting.State = S0 ∧
    sampleConfiguration.Conflict sampleConflicting
      (peerAt maxUint64).previousSet.Snapshot = true ∧
    (processInitialMessage (peerAt maxUint64) sampleConflicting).1.clock.Tock
      = (peerAt maxUint64).clock.Tock ∧
    (processInitialMessage (peerAt maxUint64) sampleConflicting).1.clock.Tock
      ≠ (peerAt maxUint64).clock.Tock + 1 ∧
    (processInitialMessage (peerAt maxUint64) sampleConflicting).2.Timestamp
      ≠ (peerAt maxUint64).clock.Tock + 1 := by
  decide

/-- C1 (amended): for a message in state S0, when it conflicts with the
previous set the clock is ticked, the old contents of the previous set are
dropped and the set holds exactly the message stamped with the new clock
value, which is the old value plus one whenever the old value is below the
largest 64-bit value; when it does not conflict the clock is unchanged and
the message stamped with it is appended to the old previous set. -/
theorem processInitialMessage_stamp (p : Peer) (m : Message) (h0 : m.State = S0) :
    (p.configuration.Conflict m p.previousSet.Snapshot = true →
      (processInitialMessage p m).1.clock = p.clock.Tick ∧
      (processInitialMessage p m).1.previousSet.values
        = [{ m with Timestamp := p.clock.Tick.Tock }] ∧
      (p.clock.Tock < maxUint64 →
        (processInitialMessage p m).1.clock.Tock = p.clock.Tock + 1 ∧
        (processInitialMessage p m).1.previousSet.values
          = [{ m with Timestamp := p.clock.Tock + 1 }])) ∧
    (p.configuration.Conflict m p.previousSet.Snapshot = false →
      (processInitialMessage p m).1.clock = p.clock ∧
      (processInitialMessage p m).1.previousSet.values
        = p.previousSet.values ++ [{ m with Timestamp := p.clock.Tock }]) := by
  constructor
  · intro hc
    have hs : stampInitial p m
        = ({ p with clock := p.clock.Tick
                    previousSet := { values := [{ m with Timestamp := p.clock.Tick.Tock }] } },
           { m with Timestamp := p.clock.Tick.Tock }) := by
      simp [stampInitial, h0, hc, PreviousSet.Clear, PreviousSet.Append]
    have hr : (processInitialMessage p m).1.clock = p.clock.Tick ∧
        (processInitialMessage p m).1.previousSet.values
          = [{ m with Timestamp := p.clock.Tick.Tock }] := by
      unfold processInitialMessage
      rw [hs]
      unfold routeDestination
      by_cases hd : m.Destination.length > 1
      · simp [hd, h0, send]
      · simp [hd]
    refine ⟨hr.1, hr.2, ?_⟩
    intro hlt
    have ht : p.clock.Tick.Tock = p.clock.Tock + 1 := Tick_of_lt p.clock hlt
    refine ⟨?_, ?_⟩
    · rw [hr.1]; exact ht
    · rw [hr.2, ht]
  · intro hc
    have hs : stampInitial p m
        = ({ p with previousSet :=
                      { values := p.previousSet.values ++ [{ m with Timestamp := p.clock.Tock }] } },
           { m with Timestamp := p.clock.Tock }) := by
      simp [stampInitial, h0, hc, PreviousSet.Append]
    unfold processInitialMessage
    rw [hs]
    unfold routeDestination
    by_cases hd : m.Destination.length > 1
    · simp [hd, h0, send]
    · simp [hd]

/-- Witness of `processInitialMessage_stamp`: a conflicting message at
clock 4 and a non-conflicting one. -/
theorem processInitialMessage_stamp_witness :
    ((processInitialMessage (peerAt 4) sampleConflicting).1.clock.Tock = 4 + 1 ∧
      (processInitialMessage (peerAt 4) sampleConflicting).1.previousSet.values
        = [{ sampleConflicting with Timestamp := 4 + 1 }]) ∧
    ((processInitialMessage (peerAt 4) sampleIndependent).1.clock = (peerAt 4).clock ∧
      (processInitialMessage (peerAt 4) sampleIndependent).1.previousSet.values
        = (peerAt 4).previousSet.values ++ [{ sampleIndependent with Timestamp := 4 }]) :=
  ⟨((processInitialMessage_stamp (peerAt 4) sampleConflicting (by decide)).1
      (by decide)).2.2 (by decide),
   (processInitialMessage_stamp (peerAt 4) sampleIndependent (by decide)).2 (by decide)⟩

/-! ## Single-destination fast path -/

/-- C2: an Initial message in state S0 with exactly one destination and the
peer's protocol version leaves one `process` call in state S3, stamped with
the clock value read after the S0 stamping step (which is the clock value
after the call); nothing is broadcast and the S3 message is enqueued in the
receive queue. -/
theorem process_single_destination (p : Peer) (m : Message)
    (hv : m.Header.ProtocolVersion = p.configuration.Version)
    (ht : m.Header.MsgType = Initial) (h0 : m.State = S0)
    (hd : m.Destination.length = 1) :
    (process p m).2.State = S3 ∧
    (process p m).2.Timestamp = (stampInitial p m).1.clock.Tock ∧
    (stampInitial p m).1.clock
      = (if p.configuration.Conflict m p.previousSet.Snapshot = true then p.clock.Tick
         else p.clock) ∧
    (process p m).2.Timestamp = (process p m).1.clock.Tock ∧
    (process p m).1.transport = p.transport ∧
    (process p m).1.rqueue = p.rqueue.Enqueue (process p m).2 ∧
    (process p m).2 ∈ (process p m).1.rqueue.Snapshot := by
  have hd1 : ¬ (m.Destination.length > 1) := by omega
  have hsd : (stampInitial p m).2.Destination = m.Destination :=
    stampInitial_Destination p m
  have hst : (stampInitial p m).1.transport = p.transport := stampInitial_transport p m
  have hsq : (stampInitial p m).1.rqueue = p.rqueue := stampInitial_rqueue p m
  have hpi : processInitialMessage p m
      = ((stampInitial p m).1,
         { (stampInitial p m).2 with
           Timestamp := (stampInitial p m).1.clock.Tock, State := S3 }) := by
    unfold processInitialMessage routeDestination
    simp [hd1, hsd]
  have hp : process p m
      = finishProcess true (processInitialMessage p m).1 (processInitialMessage p m).2 := by
    unfold process Message.Extract
    simp [hv, ht]
  have hq : (process p m).1.rqueue = p.rqueue.Enqueue (process p m).2 := by
    rw [hp, hpi]
    simp [finishProcess, doDeliver, hsq]
  refine ⟨?_, ?_, ?_, ?_, ?_, hq, ?_⟩
  · rw [hp, hpi]; rfl
  · rw [hp, hpi]; rfl
  · unfold stampInitial
    by_cases hc : p.configuration.Conflict m p.previousSet.Snapshot = true <;> simp [h0, hc]
  · rw [hp, hpi]; rfl
  · rw [hp, hpi]
    simp [finishProcess, doDeliver, hst]
  · rw [hq]
    exact mem_Enqueue _ _

/-- Witness of `process_single_destination` on a fresh peer. -/
theorem process_single_destination_witness :
    (process (NewPeer sampleConfiguration) sampleMessage).2.State = S3 ∧
    (process (NewPeer sampleConfiguration) sampleMessage).2.Timestamp
      = (stampInitial (NewPeer sampleConfiguration) sampleMessage).1.clock.Tock ∧
    (stampInitial (NewPeer sampleConfiguration) sampleMessage).1.clock
      = (if sampleConfiguration.Conflict sampleMessage
            (NewPeer sampleConfiguration).previousSet.Snapshot = true
         then (NewPeer sampleConfiguration).clock.Tick
         else (NewPeer sampleConfiguration).clock) ∧
    (process (NewPeer sampleConfiguration) sampleMessage).2.Timestamp
      = (process (NewPeer sampleConfiguration) sampleMessage).1.clock.Tock ∧
    (process (NewPeer sampleConfiguration) sampleMessage).1.transport
      = (NewPeer sampleConfiguration).transport ∧
    (process (NewPeer sampleConfiguration) sampleMessage).1.rqueue
      = (NewPeer sampleConfiguration).rqueue.Enqueue
          (process (NewPeer sampleConfiguration) sampleMessage).2 ∧
    (process (NewPeer sampleConfiguration) sampleMessage).2
      ∈ (process (NewPeer sampleConfiguration) sampleMessage).1.rqueue.Snapshot :=
  process_single_destination (NewPeer sampleConfiguration) sampleMessage
    (by decide) (by decide) (by decide) (by decide)

/-! ## Multi-destination handshake -/

/-- C4: for a message in state S0 with more than one destination,
`processInitialMessage` leaves it in state S1 stamped with the current clock
value and hands exactly one message to the transport: the updated message
with type External and with the peer's own partition filtered out of the
destination (order kept), all other fields equal; the local message keeps
its destination and header. -/
theorem processInitialMessage_multi_destination (p : Peer) (m : Message)
    (h0 : m.State = S0) (hd : 1 < m.Destination.length) :
    (processInitialMessage p m).2.State = S1 ∧
    (processInitialMessage p m).2.Timestamp = (processInitialMessage p m).1.clock.Tock ∧
    (processInitialMessage p m).1.transport.sent = p.transport.sent ++
      [{ (processInitialMessage p m).2 with
         Header := { (processInitialMessage p m).2.Header with MsgType := External }
         Destination :=
           m.Destination.filter (fun d => decide (d ≠ p.configuration.Partition)) }] ∧
    (processInitialMessage p m).2.Destination = m.Destination ∧
    (processInitialMessage p m).2.Header = m.Header ∧
    (processInitialMessage p m).2.Identifier = m.Identifier ∧
    (processInitialMessage p m).2.Partitions = m.Partitions ∧
    (processInitialMessage p m).2.Content = m.Content := by
  have hd1 : m.Destination.length > 1 := hd
  by_cases hc : p.configuration.Conflict m p.previousSet.Snapshot = true
  · have hs : stampInitial p m
        = ({ p with clock := p.clock.Tick
                    previousSet := { values := [{ m with Timestamp := p.clock.Tick.Tock }] } },
           { m with Timestamp := p.clock.Tick.Tock }) := by
      simp [stampInitial, h0, hc, PreviousSet.Clear, PreviousSet.Append]
    unfold processInitialMessage
    rw [hs]
    simp [routeDestination, hd1, h0, send, Transport.Broadcast]
  · have hs : stampInitial p m
        = ({ p with previousSet :=
                      { values := p.previousSet.values ++ [{ m with Timestamp := p.clock.Tock }] } },
           { m with Timestamp := p.clock.Tock }) := by
      simp [stampInitial, h0, hc, PreviousSet.Append]
    unfold processInitialMessage
    rw [hs]
    simp [routeDestination, hd1, h0, send, Transport.Broadcast]

/-- Witness of `processInitialMessage_multi_destination`: a message for
partitions "P" and "Q" at a peer of "P". -/
theorem processInitialMessage_multi_destination_witness :
    (processInitialMessage (peerAt 4) sampleMulti).2.State = S1 ∧
    (processInitialMessage (peerAt 4) sampleMulti).1.transport.sent
      = [{ sampleMulti with
           Header := { ProtocolVersion := 1, MsgType := External }
           State := S1, Timestamp := 5, Destination := ["Q"] }] :=
  ⟨(processInitialMessage_multi_destination (peerAt 4) sampleMulti
      (by decide) (by decide)).1, by decide⟩

/-! ## Re-ingest of a message in state S2 -/

/-- C5 (as stated, refuted): a message in state S2 with a single destination
and timestamp 5 above the clock 0 leaves `processInitialMessage` with the
clock still 0, the previous set still populated and its timestamp reset to
the clock value. -/
theorem processInitialMessage_S2_single_no_leap :
    sampleSingleS2.State = S2 ∧
    sampleSingleS2.Timestamp > (peerAt 0).clock.Tock ∧
    ¬ ((processInitialMessage (peerAt 0) sampleSingleS2).1.clock.Tock
        ≥ sampleSingleS2.Timestamp) ∧
    (processInitialMessage (peerAt 0) sampleSingleS2).1.previousSet.values ≠ [] ∧
    (processInitialMessage (peerAt 0) sampleSingleS2).2.Timestamp
      ≠ sampleSingleS2.Timestamp := by
  decide

/-- C5 (amended): for a message in state S2 with more than one destination
whose timestamp T is greater than the clock value, after
`processInitialMessage` the clock is at least T (it is the larger of the old
value and T), the previous set is empty and the message is in state S3 with
timestamp T. -/
theorem processInitialMessage_S2_leap (p : Peer) (m : Message)
    (h2 : m.State = S2) (hd : 1 < m.Destination.length)
    (hT : m.Timestamp > p.clock.Tock) :
    (processInitialMessage p m).1.clock.Tock ≥ m.Timestamp ∧
    (processInitialMessage p m).1.clock = p.clock.Leap m.Timestamp ∧
    (processInitialMessage p m).1.previousSet.values = [] ∧
    (processInitialMessage p m).2.State = S3 ∧
    (processInitialMessage p m).2.Timestamp = m.Timestamp := by
  have hd1 : m.Destination.length > 1 := hd
  have hs : stampInitial p m = (p, m) := by
    simp [stampInitial, h2]
  have hT1 : p.clock.value < m.Timestamp := hT
  unfold processInitialMessage
  rw [hs]
  simp [routeDestination, hd1, h2, hT1, PreviousSet.Clear, ProcessClock.Leap, ProcessClock.Tock]

/-- Witness of `processInitialMessage_S2_leap`: timestamp 9 at clock 4. -/
theorem processInitialMessage_S2_leap_witness :
    (processInitialMessage (peerAt 4) sampleMultiS2).1.clock.Tock ≥ sampleMultiS2.Timestamp ∧
    (processInitialMessage (peerAt 4) sampleMultiS2).1.clock
      = (peerAt 4).clock.Leap sampleMultiS2.Timestamp ∧
    (processInitialMessage (peerAt 4) sampleMultiS2).1.previousSet.values = [] ∧
    (processInitialMessage (peerAt 4) sampleMultiS2).2.State = S3 ∧
    (processInitialMessage (peerAt 4) sampleMultiS2).2.Timestamp = sampleMultiS2.Timestamp :=
  processInitialMessage_S2_leap (peerAt 4) sampleMultiS2 (by decide) (by decide) (by decide)

/-! ## Version mismatch -/

/-- C7: a message whose protocol version differs from the peer's configured
version changes nothing, whatever its type and state: clock, previous set,
memo and receive queue keep their values, nothing is broadcast and no
delivery is triggered; the message itself is untouched. -/
theorem process_version_mismatch (p : Peer) (m : Message)
    (hv : m.Header.ProtocolVersion ≠ p.configuration.Version) :
    (process p m).1.clock = p.clock ∧
    (process p m).1.previousSet = p.previousSet ∧
    (process p m).1.received = p.received ∧
    (process p m).1.rqueue = p.rqueue ∧
    (process p m).1.transport = p.transport ∧
    (process p m).1.deliver = p.deliver ∧
    (process p m).2 = m := by
  have hp : process p m = (p, m) := by
    unfold process Message.Extract
    simp [hv]
  rw [hp]
  simp

/-- Witness of `process_version_mismatch`: version 2 at a peer of version 1. -/
theorem process_version_mismatch_witness :
    (process (peerAt 4) sampleOtherVersion).1.clock = (peerAt 4).clock ∧
    (process (peerAt 4) sampleOtherVersion).1.previousSet = (peerAt 4).previousSet ∧
    (process (peerAt 4) sampleOtherVersion).1.received = (peerAt 4).received ∧
    (process (peerAt 4) sampleOtherVersion).1.rqueue = (peerAt 4).rqueue ∧
    (process (peerAt 4) sampleOtherVersion).1.transport = (peerAt 4).transport ∧
    (process (peerAt 4) sampleOtherVersion).1.deliver = (peerAt 4).deliver ∧
    (process (peerAt 4) sampleOtherVersion).2 = sampleOtherVersion :=
  process_version_mismatch (peerAt 4) sampleOtherVersion (by decide)

/-! ## Timestamp exchange -/

theorem readEntry_insertEntry (id : UID) (ts : Nat) (l : List (UID × List Nat)) :
    readEntry id (insertEntry id ts l) = readEntry id l ++ [ts] := by
  induction l with
  | nil => simp [insertEntry, readEntry]
  | cons e rest ih =>
    obtain ⟨k, vs⟩ := e
    by_cases hk : k = id
    · simp [insertEntry, readEntry, hk]
    · simp [insertEntry, readEntry, hk, ih]

theorem Read_Insert (memo : Memo) (id : UID) (ts : Nat) :
    (memo.Insert id ts).Read id = memo.Read id ++ [ts] := by
  unfold Memo.Insert Memo.Read
  exact readEntry_insertEntry id ts memo.entries

theorem foldl_max_ge (l : List Nat) (a : Nat) :
    a ≤ l.foldl max a ∧ ∀ v ∈ l, v ≤ l.foldl max a := by
  induction l generalizing a with
  | nil => simp
  | cons x rest ih =>
    simp only [List.foldl_cons, List.mem_cons]
    have h := ih (max a x)
    refine ⟨le_trans (le_max_left a x) h.1, ?_⟩
    intro v hv
    rcases hv with rfl | hv
    · exact le_trans (le_max_right a v) h.1
    · exact h.2 v hv

theorem foldl_max_mem (l : List Nat) (a : Nat) :
    l.foldl max a = a ∨ l.foldl max a ∈ l := by
  induction l generalizing a with
  | nil => simp
  | cons x rest ih =>
    simp only [List.foldl_cons, List.mem_cons]
    rcases ih (max a x) with h | h
    · rcases le_total a x with hax | hxa
      · right; left; rw [h]; exact max_eq_right hax
      · left; rw [h]; exact max_eq_left hxa
    · right; right; exact h

theorem MaxValue_ge (l : List Nat) : ∀ v ∈ l, v ≤ MaxValue l :=
  (foldl_max_ge l 0).2

theorem MaxValue_mem (l : List Nat) (h : l ≠ []) : MaxValue l ∈ l := by
  rcases foldl_max_mem l 0 with h0 | hm
  · cases l with
    | nil => exact absurd rfl h
    | cons x rest =>
      have hx : x ≤ MaxValue (x :: rest) := MaxValue_ge _ x (by simp)
      have hz : MaxValue (x :: rest) = 0 := h0
      have : x = 0 := by omega
      rw [hz, this]
      simp
  · exact hm

theorem exchangeTimestamp_rec (p : Peer) (m : Message) :
    (exchangeTimestamp p m).1.received = p.received.Insert m.Identifier m.Timestamp := by
  unfold exchangeTimestamp
  simp only []
  split
  · rfl
  · split <;> rfl

theorem exchangeTimestamp_peer (p : Peer) (m : Message) :
    (exchangeTimestamp p m).1
      = { p with received := p.received.Insert m.Identifier m.Timestamp } := by
  unfold exchangeTimestamp
  simp only []
  split
  · rfl
  · split <;> rfl

/-- C3: `exchangeTimestamp` appends the message timestamp to the memo list
of the message identifier; with `values` the resulting list, the message is
unchanged when `|values| < m.Partitions`; otherwise, with `tsm` the largest
element of `values`, the message gets state S3 and keeps its timestamp when
that timestamp is at least `tsm`, and gets timestamp `tsm` and state S2 when
it is below `tsm`. -/
theorem exchangeTimestamp_quorum (p : Peer) (m : Message) :
    (exchangeTimestamp p m).1.received.Read m.Identifier
      = p.received.Read m.Identifier ++ [m.Timestamp] ∧
    ((((exchangeTimestamp p m).1.received.Read m.Identifier).length : Int) < m.Partitions →
      (exchangeTimestamp p m).2 = m) ∧
    (¬ (((exchangeTimestamp p m).1.received.Read m.Identifier).length : Int) < m.Partitions →
      m.Timestamp ≥ MaxValue ((exchangeTimestamp p m).1.received.Read m.Identifier) →
      (exchangeTimestamp p m).2 = { m with State := S3 }) ∧
    (¬ (((exchangeTimestamp p m).1.received.Read m.Identifier).length : Int) < m.Partitions →
      m.Timestamp < MaxValue ((exchangeTimestamp p m).1.received.Read m.Identifier) →
      (exchangeTimestamp p m).2
        = { m with
            Timestamp := MaxValue ((exchangeTimestamp p m).1.received.Read m.Identifier)
            State := S2 }) ∧
    (∀ v ∈ (exchangeTimestamp p m).1.received.Read m.Identifier,
      v ≤ MaxValue ((exchangeTimestamp p m).1.received.Read m.Identifier)) ∧
    MaxValue ((exchangeTimestamp p m).1.received.Read m.Identifier)
      ∈ (exchangeTimestamp p m).1.received.Read m.Identifier := by
  have hrec := exchangeTimestamp_rec p m
  have hread : (exchangeTimestamp p m).1.received.Read m.Identifier
      = p.received.Read m.Identifier ++ [m.Timestamp] := by
    rw [hrec]; exact Read_Insert _ _ _
  rw [hread]
  refine ⟨rfl, ?_, ?_, ?_, MaxValue_ge _, MaxValue_mem _ (by simp)⟩
  · intro hlt
    unfold exchangeTimestamp
    simp only [Read_Insert]
    rw [if_pos hlt]
  · intro hlt hge
    unfold exchangeTimestamp
    simp only [Read_Insert]
    rw [if_neg hlt, if_pos hge]
  · intro hlt hltm
    unfold exchangeTimestamp
    simp only [Read_Insert]
    rw [if_neg hlt, if_neg (by omega)]

/-- Witness of `exchangeTimestamp_quorum`: with 5 already in the memo, the
message of timestamp 1 reaches the quorum of two and is raised to 5 in S2;
on a fresh peer it is left unchanged. -/
theorem exchangeTimestamp_quorum_witness :
    (exchangeTimestamp peerWithMemo sampleExternal).2
      = { sampleExternal with
          Timestamp := MaxValue
            ((exchangeTimestamp peerWithMemo sampleExternal).1.received.Read
              sampleExternal.Identifier)
          State := S2 } ∧
    (exchangeTimestamp (NewPeer sampleConfiguration) sampleExternal).2 = sampleExternal :=
  ⟨(exchangeTimestamp_quorum peerWithMemo sampleExternal).2.2.2.1 (by decide) (by decide),
   (exchangeTimestamp_quorum (NewPeer sampleConfiguration) sampleExternal).2.1 (by decide)⟩

/-! ## Monotonicity of the message state -/

theorem processInitialMessage_rank (p : Peer) (m : Message) :
    m.State.rank ≤ (processInitialMessage p m).2.State.rank := by
  unfold processInitialMessage stampInitial routeDestination
  by_cases hd : m.Destination.length > 1 <;>
    by_cases hc : p.configuration.Conflict m p.previousSet.Snapshot = true <;>
    cases hs : m.State <;>
    simp [hd, hc, hs, MessageState.rank] <;>
    split_ifs <;> simp [MessageState.rank]

theorem exchangeTimestamp_rank (p : Peer) (m : Message)
    (hx : m.State = S3 →
      (((p.received.Insert m.Identifier m.Timestamp).Read m.Identifier).length : Int)
          < m.Partitions ∨
        MaxValue ((p.received.Insert m.Identifier m.Timestamp).Read m.Identifier)
          ≤ m.Timestamp) :
    m.State.rank ≤ (exchangeTimestamp p m).2.State.rank := by
  unfold exchangeTimestamp
  simp only []
  split_ifs with h1 h2
  · exact le_refl _
  · cases m.State <;> simp [MessageState.rank]
  · cases hs : m.State with
    | S3 =>
      rcases hx hs with h | h
      · exact absurd h h1
      · exact absurd h h2
    | _ => simp [MessageState.rank]

/-- C6 (as stated, refuted): an External message that enters `process` in
state S3 with timestamp 1, while the memo already holds 5 for its
identifier and the quorum of two is reached, leaves in state S2. -/
theorem process_external_S3_demoted :
    sampleExternalS3.Header.ProtocolVersion = peerWithMemo.configuration.Version ∧
    sampleExternalS3.Header.MsgType = External ∧
    sampleExternalS3.State = S3 ∧
    (process peerWithMemo sampleExternalS3).2.State = S2 ∧
    ¬ (sampleExternalS3.State.rank
        ≤ (process peerWithMemo sampleExternalS3).2.State.rank) := by
  decide

/-- C6 (amended): the state of a message after `process` is greater than or
equal to its state before in the order S0 < S1 < S2 < S3, and a message
entering in S3 stays in S3, for every message on the Initial path and for
every message on the External path except one that enters in S3, reaches
the quorum and carries a timestamp below the largest collected one. -/
theorem process_state_monotone (p : Peer) (m : Message)
    (hx : m.Header.MsgType = External → m.State = S3 →
      (((p.received.Insert m.Identifier m.Timestamp).Read m.Identifier).length : Int)
          < m.Partitions ∨
        MaxValue ((p.received.Insert m.Identifier m.Timestamp).Read m.Identifier)
          ≤ m.Timestamp) :
    m.State.rank ≤ (process p m).2.State.rank ∧
    (m.State = S3 → (process p m).2.State = S3) := by
  have hle : m.State.rank ≤ (process p m).2.State.rank := by
    unfold process Message.Extract finishProcess
    simp only []
    split_ifs with hv ht he
    all_goals first
      | exact le_refl _
      | exact processInitialMessage_rank p m
      | exact exchangeTimestamp_rank p m (hx he)
  refine ⟨hle, ?_⟩
  intro h3
  rw [h3] at hle
  cases hs : (process p m).2.State <;> simp [hs, MessageState.rank] at hle
  rfl

/-- Witness of `process_state_monotone`: an Initial message from S0 and an
External message in S3 that does not reach the quorum. -/
theorem process_state_monotone_witness :
    (sampleMulti.State.rank ≤ (process (peerAt 4) sampleMulti).2.State.rank ∧
      (sampleMulti.State = S3 → (process (peerAt 4) sampleMulti).2.State = S3)) ∧
    (sampleExternalS3.State.rank
        ≤ (process (NewPeer sampleConfiguration) sampleExternalS3).2.State.rank ∧
      (sampleExternalS3.State = S3 →
        (process (NewPeer sampleConfiguration) sampleExternalS3).2.State = S3)) :=
  ⟨process_state_monotone (peerAt 4) sampleMulti (by decide),
   process_state_monotone (NewPeer sampleConfiguration) sampleExternalS3 (by decide)⟩

/-! ## Enqueue of an External message -/

/-- C8 (as stated, refuted): an External message of matching version that
leaves the memo with one timestamp out of two partitions is enqueued all the
same: the receive queue after `process` holds it and differs from the queue
before. -/
theorem process_external_waiting_enqueued :
    sampleExternal.Header.ProtocolVersion = (NewPeer sampleConfiguration).configuration.Version ∧
    sampleExternal.Header.MsgType = External ∧
    ((((process (NewPeer sampleConfiguration) sampleExternal).1.received.Read
        sampleExternal.Identifier).length : Int) < sampleExternal.Partitions) ∧
    (process (NewPeer sampleConfiguration) sampleExternal).1.rqueue
      ≠ (NewPeer sampleConfiguration).rqueue ∧
    sampleExternal ∈ (process (NewPeer sampleConfiguration) sampleExternal).1.rqueue.Snapshot := by
  decide

/-- C8 (amended): for every External message of matching version, whether
or not the quorum is reached, `process` enqueues the message as
`exchangeTimestamp` leaves it, replacing any entry of the same identifier,
and then triggers a delivery on the new queue; clock, previous set and
transport are untouched.  When the processing leaves the memo list of the
identifier with fewer than `m.Partitions` timestamps, the message is
unchanged (still waiting) and it is this unchanged message that is
enqueued. -/
theorem process_external_enqueued (p : Peer) (m : Message)
    (hv : m.Header.ProtocolVersion = p.configuration.Version)
    (ht : m.Header.MsgType = External) :
    (process p m).2 = (exchangeTimestamp p m).2 ∧
    (process p m).1.rqueue = p.rqueue.Enqueue (process p m).2 ∧
    (process p m).2 ∈ (process p m).1.rqueue.Snapshot ∧
    (process p m).1.deliver
      = p.deliver.Deliver (p.rqueue.Enqueue (process p m).2).Snapshot ∧
    (process p m).1.clock = p.clock ∧
    (process p m).1.previousSet = p.previousSet ∧
    (process p m).1.transport = p.transport ∧
    ((((process p m).1.received.Read m.Identifier).length : Int) < m.Partitions →
      (process p m).2 = m ∧
      (process p m).1.rqueue = p.rqueue.Enqueue m ∧
      m ∈ (process p m).1.rqueue.Snapshot) := by
  have hne : ¬ (External = Initial) := by decide
  have hp : process p m
      = finishProcess true (exchangeTimestamp p m).1 (exchangeTimestamp p m).2 := by
    unfold process Message.Extract
    simp [hv, ht, hne]
  have hfull : process p m
      = (doDeliver
          { p with
            received := p.received.Insert m.Identifier m.Timestamp
            rqueue := p.rqueue.Enqueue (exchangeTimestamp p m).2 },
         (exchangeTimestamp p m).2) := by
    rw [hp, exchangeTimestamp_peer p m]
    simp [finishProcess]
  have hwait : (((p.received.Insert m.Identifier m.Timestamp).Read m.Identifier).length : Int)
      < m.Partitions → (exchangeTimestamp p m).2 = m := by
    intro h
    unfold exchangeTimestamp
    simp only []
    rw [if_pos h]
  have hmsg : (process p m).2 = (exchangeTimestamp p m).2 := by rw [hfull]
  have hqueue : (process p m).1.rqueue = p.rqueue.Enqueue (process p m).2 := by
    rw [hfull]; rfl
  have hmem : (process p m).2 ∈ (process p m).1.rqueue.Snapshot := by
    rw [hqueue]; exact mem_Enqueue _ _
  have hrec : (process p m).1.received = p.received.Insert m.Identifier m.Timestamp := by
    rw [hfull]; rfl
  refine ⟨hmsg, hqueue, hmem, ?_, ?_, ?_, ?_, ?_⟩
  · rw [hfull]; rfl
  · rw [hfull]; rfl
  · rw [hfull]; rfl
  · rw [hfull]; rfl
  · intro hq
    rw [hrec] at hq
    have hm : (process p m).2 = m := by rw [hmsg]; exact hwait hq
    refine ⟨hm, ?_, ?_⟩
    · rw [hqueue, hm]
    · have h := hmem
      rw [hm] at h
      exact h

/-- Witness of `process_external_enqueued`: on a fresh peer the message
waits (one timestamp of two) and is enqueued unchanged; on a peer whose memo
holds 5 the quorum is reached and the message is enqueued in S2 with
timestamp 5. -/
theorem process_external_enqueued_witness :
    ((process (NewPeer sampleConfiguration) sampleExternal).2 = sampleExternal ∧
      (process (NewPeer sampleConfiguration) sampleExternal).1.rqueue
        = (NewPeer sampleConfiguration).rqueue.Enqueue sampleExternal ∧
      sampleExternal
        ∈ (process (NewPeer sampleConfiguration) sampleExternal).1.rqueue.Snapshot) ∧
    (process peerWithMemo sampleExternal).1.rqueue
      = peerWithMemo.rqueue.Enqueue (process peerWithMemo sampleExternal).2 ∧
    (process peerWithMemo sampleExternal).1.rqueue.Snapshot
      = [{ sampleExternal with State := S2, Timestamp := 5 }] :=
  ⟨(process_external_enqueued (NewPeer sampleConfiguration) sampleExternal
      (by decide) (by decide)).2.2.2.2.2.2.2 (by decide),
   (process_external_enqueued peerWithMemo sampleExternal (by decide) (by decide)).2.1,
   by decide⟩

/-! ## The logical clock -/

theorem tickTimes_value (n : Nat) : (tickTimes n NewClock).value = min n maxUint64 := by
  induction n with
  | zero => simp [tickTimes, NewClock]
  | succ k ih =>
    have hstep : tickTimes (k + 1) NewClock = (tickTimes k NewClock).Tick := by
      unfold tickTimes
      exact Function.iterate_succ_apply' _ _ _
    rw [hstep]
    unfold ProcessClock.Tick
    split_ifs with hlt
    · simp only []
      omega
    · omega

theorem tickTimes_Tock_eq (n : Nat) : (tickTimes n NewClock).Tock = min n maxUint64 :=
  tickTimes_value n

/-- C9 (as stated, refuted): after 2^64 `Tick` calls on a fresh clock `Tock`
does not return 2^64; the clock stays at the largest 64-bit value. -/
theorem tickTimes_saturates :
    (tickTimes (2 ^ 64) NewClock).Tock = 2 ^ 64 - 1 ∧
    (tickTimes (2 ^ 64) NewClock).Tock ≠ 2 ^ 64 := by
  rw [tickTimes_Tock_eq]
  decide

/-- C9 (amended): for every N up to the largest 64-bit value, after N `Tick`
calls on a fresh clock `Tock` returns N; and for every clock state, after
`Defines(0)` `Tock` returns 0. -/
theorem tickTimes_Tock (N : Nat) (hN : N ≤ maxUint64) (c : ProcessClock) :
    (tickTimes N NewClock).Tock = N ∧ (c.Defines 0).Tock = 0 := by
  refine ⟨?_, rfl⟩
  rw [tickTimes_Tock_eq]
  exact min_eq_left hN

/-- Witness of `tickTimes_Tock`: the fifty ticks of `clock_test.go`. -/
theorem tickTimes_Tock_witness :
    (tickTimes 50 NewClock).Tock = 50 ∧ ((tickTimes 50 NewClock).Defines 0).Tock = 0 :=
  tickTimes_Tock 50 (by decide) (tickTimes 50 NewClock)

/-! ## Previous set and clock along a run -/

theorem stampInitial_of_conflict (p : Peer) (m : Message) (h0 : m.State = S0)
    (hc : p.configuration.Conflict m p.previousSet.Snapshot = true) :
    stampInitial p m
      = ({ p with clock := p.clock.Tick
                  previousSet := { values := [{ m with Timestamp := p.clock.Tick.Tock }] } },
         { m with Timestamp := p.clock.Tick.Tock }) := by
  simp [stampInitial, h0, hc, PreviousSet.Clear, PreviousSet.Append]

theorem stampInitial_of_no_conflict (p : Peer) (m : Message) (h0 : m.State = S0)
    (hc : ¬ p.configuration.Conflict m p.previousSet.Snapshot = true) :
    stampInitial p m
      = ({ p with previousSet :=
                    { values := p.previousSet.values ++ [{ m with Timestamp := p.clock.Tock }] } },
         { m with Timestamp := p.clock.Tock }) := by
  simp [stampInitial, h0, hc, PreviousSet.Append]

theorem stampInitial_of_not_S0 (p : Peer) (m : Message) (h0 : ¬ m.State = S0) :
    stampInitial p m = (p, m) := by
  simp [stampInitial, h0]

theorem stampInitial_keeps (p : Peer) (m : Message) (h : StampedWithClock p) :
    StampedWithClock (stampInitial p m).1 ∧
    p.clock.Tock ≤ (stampInitial p m).1.clock.Tock := by
  by_cases h0 : m.State = S0
  · by_cases hc : p.configuration.Conflict m p.previousSet.Snapshot = true
    · rw [stampInitial_of_conflict p m h0 hc]
      refine ⟨?_, Tick_value_le p.clock⟩
      intro x hx
      simp only [PreviousSet.Snapshot, List.mem_singleton] at hx
      rw [hx]
    · rw [stampInitial_of_no_conflict p m h0 hc]
      refine ⟨?_, le_refl _⟩
      intro x hx
      simp only [PreviousSet.Snapshot, List.mem_append, List.mem_singleton] at hx
      rcases hx with hx | hx
      · exact h x hx
      · rw [hx]
  · rw [stampInitial_of_not_S0 p m h0]
    exact ⟨h, le_refl _⟩

theorem routeDestination_keeps (p : Peer) (m : Message) (h : StampedWithClock p) :
    StampedWithClock (routeDestination p m).1 ∧
    p.clock.Tock ≤ (routeDestination p m).1.clock.Tock := by
  unfold routeDestination
  by_cases hd : m.Destination.length > 1
  · by_cases h0 : m.State = S0
    · simp only [hd, h0, if_true]
      exact ⟨h, le_refl _⟩
    · by_cases h2 : m.State = S2
      · by_cases hT : m.Timestamp > p.clock.Tock
        · simp only [hd, h0, h2, hT, if_true, if_false]
          refine ⟨?_, ?_⟩
          · intro x hx
            simp [PreviousSet.Clear, PreviousSet.Snapshot] at hx
          · simp [ProcessClock.Leap, ProcessClock.Tock]
        · simp only [hd, h0, h2, hT, if_true, if_false]
          exact ⟨h, le_refl _⟩
      · simp only [hd, h0, h2, if_true, if_false]
        exact ⟨h, le_refl _⟩
  · simp only [hd, if_false]
    exact ⟨h, le_refl _⟩

theorem step_keeps (p : Peer) (c : Call) (h : StampedWithClock p) :
    StampedWithClock (step p c) ∧ p.clock.Tock ≤ (step p c).clock.Tock := by
  cases c with
  | initial m =>
    have h1 := stampInitial_keeps p m h
    have h2 := routeDestination_keeps (stampInitial p m).1 (stampInitial p m).2 h1.1
    exact ⟨h2.1, le_trans h1.2 h2.2⟩
  | external m =>
    have hp : (exchangeTimestamp p m).1
        = { p with received := p.received.Insert m.Identifier m.Timestamp } := by
      unfold exchangeTimestamp
      simp only []
      split
      · rfl
      · split <;> rfl
    show StampedWithClock (exchangeTimestamp p m).1 ∧
      p.clock.Tock ≤ (exchangeTimestamp p m).1.clock.Tock
    rw [hp]
    exact ⟨h, le_refl _⟩

theorem run_keeps (calls : List Call) (p : Peer) (h : StampedWithClock p) :
    StampedWithClock (run p calls) := by
  induction calls generalizing p with
  | nil => exact h
  | cons c rest ih => exact ih (step p c) (step_keeps p c h).1

/-- C10: starting from a fresh peer (clock 0, empty previous set), after
every finite sequence of `processInitialMessage` and `exchangeTimestamp`
calls executed one at a time on arbitrary messages, every message stored in
the previous set has a timestamp equal to the current clock value, and the
next call, whatever it is, does not decrease the clock. -/
theorem run_previousSet_stamped_with_clock (configuration : PeerConfiguration)
    (calls : List Call) :
    (∀ x ∈ (run (NewPeer configuration) calls).previousSet.Snapshot,
      x.Timestamp = (run (NewPeer configuration) calls).clock.Tock) ∧
    (∀ c : Call, (run (NewPeer configuration) calls).clock.Tock
      ≤ (run (NewPeer configuration) (calls ++ [c])).clock.Tock) := by
  have hfresh : StampedWithClock (NewPeer configuration) := by
    intro x hx
    simp [NewPeer, NewPreviousSet, PreviousSet.Snapshot] at hx
  have hinv := run_keeps calls (NewPeer configuration) hfresh
  refine ⟨hinv, ?_⟩
  intro c
  have hrun : run (NewPeer configuration) (calls ++ [c])
      = step (run (NewPeer configuration) calls) c := by
    simp [run, List.foldl_append]
  rw [hrun]
  exact (step_keeps _ c hinv).2

end Mcast
